import Mathlib

/-!
Verification of the scope-reconciliation core of the Digital-CRM backend
(`src/controllers/calendar.controller.js`).

Shallow embedding conventions:
* JavaScript strings are modelled as `List Char` (ASCII content in practice);
  `String.prototype.replace(str, str)` replaces only the first occurrence,
  `String.prototype.replace(regex-with-gi, f)` is a case-insensitive global
  replacement, both modelled directly below.
* Dates are modelled at day granularity as `Int` (days since 1970-01-01,
  which was a Thursday), so `Date.prototype.getDay()` becomes
  `(d + 4) % 7` (0 = Sunday .. 6 = Saturday).  All dates in the source are
  pinned to noon precisely so that calendar-day arithmetic is exact, which
  this day-number model captures.
* The Prisma persistence layer is modelled as an explicit `State` record of
  calendar, scope and task rows; each controller becomes a function from a
  state and a request to a new state plus a result.  A Prisma
  `$transaction` batch is a single functional state update, so it is
  all-or-nothing by construction.
* `Math.random` based shuffling is modelled by quantifying over an
  arbitrary permutation of the list being shuffled.
-/

namespace CRM

/-- JavaScript strings are modelled as lists of characters. -/
abbrev Str := List Char

/-- Model of `String.prototype.toLowerCase` (ASCII). -/
def jsToLower (s : Str) : Str := s.map Char.toLower

/-- Model of `s.replace("_", " ")`: JavaScript `replace` with a string
pattern replaces only the first occurrence. -/
def replaceFirstUnderscore : Str → Str
  | [] => []
  | c :: rest => if c = '_' then ' ' :: rest else c :: replaceFirstUnderscore rest

/-- The human label of a content type, as computed by the source:
`contentType.replace("_", " ")`. -/
def humanLabel (ct : Str) : Str := replaceFirstUnderscore ct

/-- Model of `s.charAt(0).toUpperCase() + s.slice(1).toLowerCase()`. -/
def capFirstLowerRest (s : Str) : Str :=
  match s with
  | [] => []
  | c :: r => c.toUpper :: jsToLower r

/-- Case-insensitive "is this pattern a prefix of s" (the `i` flag of the
regex, ASCII canonicalisation). -/
def startsWithCI : Str → Str → Bool
  | [], _ => true
  | _ :: _, [] => false
  | p :: ps, c :: cs => (p.toLower == c.toLower) && startsWithCI ps cs

/-- Fuel-indexed worker for `ciReplace` (the fuel is an upper bound on the
length of the string being scanned; one character is consumed per step in
the no-match case and at least one in the match case). -/
def ciReplaceAux (pat : Str) (repl : Str → Str) : Nat → Str → Str
  | _, [] => []
  | 0, s => s
  | fuel + 1, c :: rest =>
    if !pat.isEmpty && startsWithCI pat (c :: rest) then
      repl ((c :: rest).take pat.length) ++ ciReplaceAux pat repl fuel ((c :: rest).drop pat.length)
    else
      c :: ciReplaceAux pat repl fuel rest

/-- Model of `s.replace(new RegExp(pat, "gi"), repl)` for a literal pattern
`pat` (content-type labels contain no regex metacharacters): replaces every
case-insensitive, non-overlapping, leftmost-first occurrence of `pat` in
`s` by `repl` applied to the matched slice.  An empty pattern is treated as
a no-op (content-type labels are nonempty). -/
def ciReplace (pat : Str) (repl : Str → Str) (s : Str) : Str :=
  ciReplaceAux pat repl s.length s

/-- The replacement callback used for task titles during type migration:
if the first character of the matched occurrence is uppercase the
replacement is capitalised-first + lowercase remainder, otherwise it is
all-lowercase (`match[0] === match[0].toUpperCase()` test). -/
def titleRepl (newLabel : Str) (matched : Str) : Str :=
  match matched with
  | [] => jsToLower newLabel
  | m :: _ => if m.toUpper == m then capFirstLowerRest newLabel else jsToLower newLabel

/-- Task status enumeration (`TODO | IN_PROGRESS | COMPLETED`). -/
inductive Status where
  | TODO
  | IN_PROGRESS
  | COMPLETED
deriving DecidableEq

/-- A Task row (the fields the reconciler reads or writes). -/
structure Task where
  id : Nat
  title : Str
  description : Option Str
  status : Status
  priority : Str
  contentType : Str
  publishDate : Option Int
  dueDate : Option Int
  calendarId : Nat
  brandId : Nat
deriving DecidableEq

/-- A CalendarScope row. -/
structure ScopeRec where
  id : Nat
  calendarId : Nat
  contentType : Str
  quantity : Int
  completed : Int
deriving DecidableEq

/-- A Calendar row together with its brand (`include: { brand: true }`). -/
structure Cal where
  id : Nat
  brandId : Nat
  brandName : Str
deriving DecidableEq

/-- The persistence state: the rows the reconciler touches, plus fresh-id
counters for created rows. -/
structure State where
  calendars : List Cal
  scopes : List ScopeRec
  tasks : List Task
  nextTaskId : Nat
  nextScopeId : Nat
deriving DecidableEq

/-- Day of week of day number `d` (days since 1970-01-01, a Thursday),
matching JavaScript `getDay()`: 0 = Sunday .. 6 = Saturday. -/
def dayOfWeek (d : Int) : Int := (d + 4) % 7

/-- Weekday test used throughout the source: `day !== 0 && day !== 6`. -/
def isWeekday (d : Int) : Bool := !(dayOfWeek d == 0) && !(dayOfWeek d == 6)

/-- The enumeration loop of `getRandomWeekdayDates`: starting at day `a`,
walk `k` consecutive days and keep the weekdays, in chronological order. -/
def weekdaysFrom (a : Int) : Nat → List Int
  | 0 => []
  | k + 1 => if isWeekday a then a :: weekdaysFrom (a + 1) k else weekdaysFrom (a + 1) k

/-- All weekdays in the inclusive range `[s, e]` (the `while current <= end`
loop runs `e - s + 1` times). -/
def weekdaysInRange (s e : Int) : List Int := weekdaysFrom s (e + 1 - s).toNat

/-- Model of `getRandomWeekdayDates`: the weekday list is shuffled by a
random comparator and the first `count` entries are returned.  The shuffle
is modelled by the `shuffled` parameter, which theorems constrain to be an
arbitrary permutation of `weekdaysInRange s e`. -/
def getRandomWeekdayDates (_s _e : Int) (count : Nat) (shuffled : List Int) : List Int :=
  shuffled.take count

/-- The body of the `while (count < daysBefore)` loop of
`calculateBusinessDueDate`: step one calendar day backwards, counting the
step only if it lands on a weekday.  `fuel` bounds the number of loop
iterations (three per business day is always enough, see
`stepsNeeded_le`). -/
def dueDateLoop : Nat → Int → Nat → Int
  | _, d, 0 => d
  | 0, d, _ + 1 => d
  | fuel + 1, d, n + 1 =>
    if isWeekday (d - 1) then dueDateLoop fuel (d - 1) n
    else dueDateLoop fuel (d - 1) (n + 1)

/-- Model of `calculateBusinessDueDate(publishDate, daysBefore = 2)`. -/
def calculateBusinessDueDate (publishDate : Int) (daysBefore : Nat := 2) : Int :=
  dueDateLoop (3 * daysBefore) publishDate daysBefore

/-- The nearest weekday strictly before `d` (at most two weekend days are
skipped on the way). -/
def prevWeekday (d : Int) : Int :=
  if isWeekday (d - 1) then d - 1
  else if isWeekday (d - 2) then d - 2
  else d - 3

/-- Number of weekend days skipped by one business-day step from `d`. -/
def wkSkip (d : Int) : Nat :=
  if isWeekday (d - 1) then 0
  else if isWeekday (d - 2) then 1
  else 2

/-- Exact number of backward calendar-day steps the due-date loop takes to
count `n` business days starting from `d`. -/
def stepsNeeded : Int → Nat → Nat
  | _, 0 => 0
  | d, n + 1 => wkSkip d + 1 + stepsNeeded (prevWeekday d) n

/-- Number of weekdays among the `k` consecutive days starting at `a`. -/
def countWeekdaysFrom (a : Int) : Nat → Nat
  | 0 => 0
  | k + 1 => (if isWeekday a then 1 else 0) + countWeekdaysFrom (a + 1) k

/-- Migration of one task from content type `oldCT` to `newCT` (the body of
`tasksToMigrate.map` in `updateScope`): the title is rewritten with the
case-preserving heuristic, the description — note the asymmetry in the
source — with the always-lowercase replacement, and a null description
becomes the empty string. -/
def migrateTask (oldCT newCT : Str) (t : Task) : Task :=
  let oldL := humanLabel oldCT
  let newL := humanLabel newCT
  { t with
    contentType := newCT
    title := ciReplace oldL (titleRepl newL) t.title
    description := some (match t.description with
      | some d => ciReplace oldL (fun _ => jsToLower newL) d
      | none => []) }

/-- Title of a generated task: `` `${ct.replace("_", " ")} #${n}` ``. -/
def mkTitle (ct : Str) (n : Nat) : Str :=
  humanLabel ct ++ (' ' :: '#' :: (Nat.repr n).data)

/-- Description of a generated task:
`` `Create ${ct.toLowerCase().replace("_", " ")} for ${brandName}` ``. -/
def mkDesc (ct : Str) (brandName : Str) : Str :=
  "Create ".data ++ replaceFirstUnderscore (jsToLower ct) ++ " for ".data ++ brandName

/-- A freshly generated task row (shared by `updateScope` case A and
`generateTasks`): status TODO, priority MEDIUM, both dates unset. -/
def mkScopeTask (brandName : Str) (brandId calId : Nat) (ct : Str) (n : Nat) (tid : Nat) : Task :=
  { id := tid
    title := mkTitle ct n
    description := some (mkDesc ct brandName)
    status := Status.TODO
    priority := "MEDIUM".data
    contentType := ct
    publishDate := none
    dueDate := none
    calendarId := calId
    brandId := brandId }

/-- Deletion-priority score of a task status (`TODO`=2, `IN_PROGRESS`=1,
`COMPLETED`=0). -/
def scoreOf : Status → Int
  | Status.TODO => 2
  | Status.IN_PROGRESS => 1
  | Status.COMPLETED => 0

/-- Comparison `a ≤ b` on optional publish dates with `null` as the largest
value (Postgres places nulls first when ordering descending). -/
def pdLE : Option Int → Option Int → Bool
  | _, none => true
  | none, some _ => false
  | some a, some b => a ≤ b

/-- Stable descending insertion for the publish-date retrieval order. -/
def insertPD (t : Task) : List Task → List Task
  | [] => [t]
  | h :: rest => if pdLE h.publishDate t.publishDate then t :: h :: rest else h :: insertPD t rest

/-- The `orderBy: { publishDate: 'desc' }` retrieval order, as a stable
descending sort of the stored row order. -/
def sortByPublishDateDesc : List Task → List Task
  | [] => []
  | t :: rest => insertPD t (sortByPublishDateDesc rest)

/-- Stable descending insertion for the status-score order. -/
def insertScore (t : Task) : List Task → List Task
  | [] => [t]
  | h :: rest => if scoreOf h.status ≤ scoreOf t.status then t :: h :: rest else h :: insertScore t rest

/-- Model of the `allTasks.sort((a, b) => scoreB - scoreA)` call: a stable
sort by status score, descending (ES2019 `Array.prototype.sort` is
stable). -/
def sortByScoreDesc : List Task → List Task
  | [] => []
  | t :: rest => insertScore t (sortByScoreDesc rest)

/-- The update-scope request body `{ quantity?, completed?, contentType? }`.
A falsy `contentType` (absent or empty string) is modelled as `none`. -/
structure UpdateRequest where
  quantity : Option Int
  completed : Option Int
  contentType : Option Str
deriving DecidableEq

/-- Result discriminator of the update-scope operation. -/
inductive ScopeResult where
  | ok
  | notFound
  | conflict
  | internalError
deriving DecidableEq

/-- The `isTypeChanging` test of `updateScope`:
`contentType && contentType !== currentScope.contentType`. -/
def typeChanging (req : UpdateRequest) (cur : ScopeRec) : Bool :=
  req.contentType.isSome && (req.contentType.getD cur.contentType != cur.contentType)

/-- Whether the `(calendarId, contentType)` uniqueness constraint would be
violated by moving scope `scopeId` to content type `ct` (the Prisma
`P2002` condition). -/
def conflictExists (st : State) (scopeId : Nat) (calId : Nat) (ct : Str) : Bool :=
  st.scopes.any (fun s => s.id != scopeId && s.calendarId == calId && s.contentType == ct)

/-- Step 2 of `updateScope`: persist the scope's own field changes
(quantity, completed, contentType) in one row update. -/
def applyScopeUpdate (req : UpdateRequest) (newQ : Int) (newCT : Str) (tc : Bool) (s : ScopeRec) : ScopeRec :=
  { s with
    quantity := if req.quantity.isSome then newQ else s.quantity
    completed := req.completed.getD s.completed
    contentType := if tc then newCT else s.contentType }

/-- The state after step 2 of `updateScope` (scope row updated). -/
def scopeRowUpdated (st : State) (scopeId : Nat) (req : UpdateRequest) (newQ : Int) (newCT : Str) (tc : Bool) : State :=
  { st with scopes := st.scopes.map (fun s => if s.id == scopeId then applyScopeUpdate req newQ newCT tc s else s) }

/-- Step 3 of `updateScope` (task migration): every task of the calendar
with the old content type is rewritten by `migrateTask`.  The Prisma
`$transaction` batch is modelled as this single state update, so the batch
is atomic by construction. -/
def migratedState (st : State) (calId : Nat) (oldCT newCT : Str) : State :=
  { st with tasks := st.tasks.map (fun t =>
      if t.calendarId == calId && t.contentType == oldCT then migrateTask oldCT newCT t else t) }

/-- The state `updateScope` has produced just before quantity
reconciliation: scope row updated, then migrated if the type changed. -/
def midState (st : State) (scopeId : Nat) (cur : ScopeRec) (req : UpdateRequest) : State :=
  if typeChanging req cur then
    migratedState
      (scopeRowUpdated st scopeId req (req.quantity.getD cur.quantity) (req.contentType.getD cur.contentType) (typeChanging req cur))
      cur.calendarId cur.contentType (req.contentType.getD cur.contentType)
  else
    scopeRowUpdated st scopeId req (req.quantity.getD cur.quantity) (req.contentType.getD cur.contentType) (typeChanging req cur)

/-- The tasks of one calendar with one content type, in stored row order
(the `where: { calendarId, contentType }` filter). -/
def typeTasks (l : List Task) (calId : Nat) (ct : Str) : List Task :=
  l.filter (fun t => t.calendarId == calId && t.contentType == ct)

/-- Count of tasks of one content type on one calendar
(`prisma.task.count({ where: { calendarId, contentType } })`). -/
def countTypeCal (l : List Task) (calId : Nat) (ct : Str) : Nat :=
  (typeTasks l calId ct).length

/-- Case A of `updateScope` (quantity increase): create `diff` new
unscheduled tasks, numbering on from the current count of tasks of the new
type. -/
def increaseTasks (st : State) (cal : Cal) (calId : Nat) (ct : Str) (diff : Nat) : State × ScopeResult :=
  ({ st with
      tasks := st.tasks ++ (List.range diff).map (fun i =>
        mkScopeTask cal.brandName cal.brandId calId ct (countTypeCal st.tasks calId ct + i + 1) (st.nextTaskId + i))
      nextTaskId := st.nextTaskId + diff },
   ScopeResult.ok)

/-- The deletion ordering of case B: the candidates are retrieved in
publish-date-descending order and then stable-sorted by status score
descending, so TODO tasks come first, then IN_PROGRESS, then COMPLETED,
ties broken by the retrieval order. -/
def deletionOrder (l : List Task) : List Task :=
  sortByScoreDesc (sortByPublishDateDesc l)

/-- The first `k` tasks of the deletion ordering of the calendar's tasks
of type `ct` (`sortedTasks.slice(0, countToRemove)`). -/
def toDeleteList (st : State) (calId : Nat) (ct : Str) (k : Nat) : List Task :=
  (deletionOrder (typeTasks st.tasks calId ct)).take k

/-- Case B of `updateScope` (quantity decrease): delete the first `k`
tasks of the deletion ordering, by id
(`deleteMany({ where: { id: { in: idsToDelete } } })`). -/
def decreaseTasks (st : State) (calId : Nat) (ct : Str) (k : Nat) : State × ScopeResult :=
  ({ st with tasks := st.tasks.filter (fun t => !(((toDeleteList st calId ct k).map Task.id).contains t.id)) },
   ScopeResult.ok)

/-- Steps 2-5 of `updateScope` once the scope and its calendar have been
loaded and the uniqueness guard has passed. -/
def reconcile (st : State) (scopeId : Nat) (cur : ScopeRec) (cal : Cal) (req : UpdateRequest) : State × ScopeResult :=
  if 0 < req.quantity.getD cur.quantity - cur.quantity then
    increaseTasks (midState st scopeId cur req) cal cur.calendarId (req.contentType.getD cur.contentType)
      (req.quantity.getD cur.quantity - cur.quantity).toNat
  else if req.quantity.getD cur.quantity - cur.quantity < 0 then
    decreaseTasks (midState st scopeId cur req) cur.calendarId (req.contentType.getD cur.contentType)
      (-(req.quantity.getD cur.quantity - cur.quantity)).toNat
  else (midState st scopeId cur req, ScopeResult.ok)

/-- Model of the `updateScope` controller: load the scope (404 when
absent) and its calendar, fail with Conflict when the type change would
violate the `(calendarId, contentType)` uniqueness constraint (in which
case nothing at all is changed — the failing row update is atomic and no
later step runs), and otherwise reconcile. -/
def updateScope (st : State) (scopeId : Nat) (req : UpdateRequest) : State × ScopeResult :=
  match st.scopes.find? (fun s => s.id == scopeId) with
  | none => (st, ScopeResult.notFound)
  | some cur =>
    match st.calendars.find? (fun c => c.id == cur.calendarId) with
    | none => (st, ScopeResult.internalError)
    | some cal =>
      let newContentType := req.contentType.getD cur.contentType
      if typeChanging req cur && conflictExists st scopeId cur.calendarId newContentType then
        (st, ScopeResult.conflict)
      else
        reconcile st scopeId cur cal req

/-- One `(contentType, quantity)` entry of the bulk-generate request. -/
structure GenPair where
  contentType : Str
  quantity : Int
deriving DecidableEq

/-- Count of snapshot tasks of one content type
(`calendar.tasks.filter((t) => t.contentType === contentType).length`). -/
def countType (l : List Task) (ct : Str) : Nat :=
  (l.filter (fun t => t.contentType == ct)).length

/-- Model of `prisma.calendarScope.upsert`: set the quantity of the
`(calendarId, contentType)` scope, creating the row if absent. -/
def upsertScope (st : State) (cid : Nat) (ct : Str) (q : Int) : State :=
  if st.scopes.any (fun s => s.calendarId == cid && s.contentType == ct) then
    { st with scopes := st.scopes.map (fun s =>
        if s.calendarId == cid && s.contentType == ct then { s with quantity := q } else s) }
  else
    { st with
      scopes := st.scopes ++ [{ id := st.nextScopeId, calendarId := cid, contentType := ct, quantity := q, completed := 0 }]
      nextScopeId := st.nextScopeId + 1 }

/-- One iteration of the `for (const scopeData of scopes)` loop of
`generateTasks`: count the snapshot tasks of the requested type, skip
entirely when nothing is to be created, otherwise upsert the scope and
create `max(0, quantity - existing)` unscheduled tasks. -/
def generateStep (brandName : Str) (bid cid : Nat) (snapshot : List Task) (st : State) (p : GenPair) : State × List Task :=
  let existing := countType snapshot p.contentType
  let toCreate := (p.quantity - existing).toNat
  if toCreate = 0 then (st, [])
  else
    let st1 := upsertScope st cid p.contentType p.quantity
    let created := (List.range toCreate).map (fun i =>
      mkScopeTask brandName bid cid p.contentType (existing + i + 1) (st1.nextTaskId + i))
    ({ st1 with tasks := st1.tasks ++ created, nextTaskId := st1.nextTaskId + toCreate }, created)

/-- The bulk loop of `generateTasks`, returning the created tasks grouped
by request entry (the source accumulates them into one flat `createdTasks`
array, which is the concatenation of these groups). -/
def generateTasksGo (brandName : Str) (bid cid : Nat) (snapshot : List Task) : State → List GenPair → State × List (List Task)
  | st, [] => (st, [])
  | st, p :: ps =>
    let r1 := generateStep brandName bid cid snapshot st p
    let r2 := generateTasksGo brandName bid cid snapshot r1.1 ps
    (r2.1, r1.2 :: r2.2)

/-- Model of the `generateTasks` controller: 404 when the calendar is
absent, otherwise run the bulk loop against the task snapshot fetched with
the calendar (`include: { tasks: true }`). -/
def generateTasks (st : State) (cid : Nat) (pairs : List GenPair) : State × Option (List (List Task)) :=
  match st.calendars.find? (fun c => c.id == cid) with
  | none => (st, none)
  | some cal =>
    let snapshot := st.tasks.filter (fun t => t.calendarId == cid)
    let r := generateTasksGo cal.brandName cal.brandId cid snapshot st pairs
    (r.1, some r.2)

/-- Result discriminator of the task date-assignment operation. -/
inductive DateResult where
  | ok
  | invalidArgument
  | notFound
deriving DecidableEq

/-- Model of the `updateTaskDate` controller: reject Saturday/Sunday
publish dates, otherwise set `publishDate` to the given day and `dueDate`
to exactly two calendar days earlier
(`newDate.getTime() - 2 * 24 * 60 * 60 * 1000`). -/
def updateTaskDate (st : State) (taskId : Nat) (d : Int) : State × DateResult :=
  if dayOfWeek d == 0 || dayOfWeek d == 6 then (st, DateResult.invalidArgument)
  else if st.tasks.any (fun t => t.id == taskId) then
    ({ st with tasks := st.tasks.map (fun t =>
        if t.id == taskId then { t with publishDate := some d, dueDate := some (d - 2) } else t) },
     DateResult.ok)
  else (st, DateResult.notFound)

/-- Index of the leftmost case-insensitive occurrence of `pat` in `s`
(specification-side search used to state the rewriting claim
independently of the source's scanning recursion). -/
def findCI (pat : Str) : Str → Option Nat
  | [] => none
  | c :: rest => if startsWithCI pat (c :: rest) then some 0 else (findCI pat rest).map (· + 1)

/-- Fuel-indexed worker for `specRewrite`. -/
def specRewriteAux (pat : Str) (repl : Str → Str) : Nat → Str → Str
  | 0, s => s
  | fuel + 1, s =>
    match findCI pat s with
    | none => s
    | some i =>
      s.take i ++ repl ((s.drop i).take pat.length) ++ specRewriteAux pat repl fuel (s.drop (i + pat.length))

/-- Specification-side formalisation of "replace every case-insensitive
occurrence of `pat`, leftmost first, by `repl` of the matched slice",
written by repeatedly locating the leftmost occurrence with `findCI`. -/
def specRewrite (pat : Str) (repl : Str → Str) (s : Str) : Str :=
  if pat.isEmpty then s else specRewriteAux pat repl s.length s

/-- The rewriting the claim asserts for both fields: the title-style
case-preserving replacement of the old human label by the new one. -/
def claimFieldRewrite (oldCT newCT : Str) (text : Str) : Str :=
  specRewrite (humanLabel oldCT) (titleRepl (humanLabel newCT)) text

/-- A sample calendar row used by concrete witnesses. -/
def sampleCal : Cal := { id := 1, brandId := 7, brandName := "Acme".data }

/-- A sample blog-post task used by concrete witnesses. -/
def bpTask (i : Nat) (stv : Status) (pd : Option Int) : Task :=
  { id := i
    title := mkTitle "BLOG_POST".data i
    description := some (mkDesc "BLOG_POST".data "Acme".data)
    status := stv
    priority := "MEDIUM".data
    contentType := "BLOG_POST".data
    publishDate := pd
    dueDate := none
    calendarId := 1
    brandId := 7 }

/-- The sample BLOG_POST scope row used by concrete witnesses. -/
def bpScope : ScopeRec :=
  { id := 10, calendarId := 1, contentType := "BLOG_POST".data, quantity := 3, completed := 0 }

/-- A sample state: one calendar, one BLOG_POST scope of quantity 3 and its
three tasks.  Used by concrete witnesses. -/
def sampleState : State :=
  { calendars := [sampleCal]
    scopes := [bpScope]
    tasks := [bpTask 1 Status.TODO (some 4), bpTask 2 Status.IN_PROGRESS (some 5), bpTask 3 Status.COMPLETED none]
    nextTaskId := 100
    nextScopeId := 50 }

/-- Witness request: raise the quantity to 5. -/
def reqQ5 : UpdateRequest := { quantity := some 5, completed := none, contentType := none }

/-- Witness request: lower the quantity to 1. -/
def reqQ1 : UpdateRequest := { quantity := some 1, completed := none, contentType := none }

/-- Witness request: change the content type to VIDEO. -/
def reqVid : UpdateRequest := { quantity := none, completed := none, contentType := some "VIDEO".data }

/-- Sample state with a second scope (VIDEO) on the same calendar, used to
witness the uniqueness-conflict behaviour. -/
def sampleState2 : State :=
  { sampleState with
    scopes := sampleState.scopes ++ [{ id := 11, calendarId := 1, contentType := "VIDEO".data, quantity := 2, completed := 0 }] }

/- ------------------------------------------------------------------ -/
/- Helper lemmas                                                      -/
/- ------------------------------------------------------------------ -/

theorem isWeekday_iff (d : Int) : isWeekday d = true ↔ ((d + 4) % 7 ≠ 0 ∧ (d + 4) % 7 ≠ 6) := by
  simp [isWeekday, dayOfWeek]

theorem isWeekday_false_iff (d : Int) : isWeekday d = false ↔ ((d + 4) % 7 = 0 ∨ (d + 4) % 7 = 6) := by
  simp [isWeekday, dayOfWeek, Decidable.or_iff_not_imp_left]

/-- Behaviour of `updateTaskDate` on both branches (shared helper). -/
theorem updateTaskDate_spec (st : State) (tid : Nat) (d : Int) :
    ((dayOfWeek d = 0 ∨ dayOfWeek d = 6) → updateTaskDate st tid d = (st, DateResult.invalidArgument))
    ∧ (¬(dayOfWeek d = 0 ∨ dayOfWeek d = 6) → (st.tasks.any (fun t => t.id == tid)) = true →
        (updateTaskDate st tid d).2 = DateResult.ok
        ∧ (updateTaskDate st tid d).1.tasks.length = st.tasks.length
        ∧ ∀ t ∈ st.tasks,
            (t.id ≠ tid → t ∈ (updateTaskDate st tid d).1.tasks)
            ∧ (t.id = tid →
                { t with publishDate := some d, dueDate := some (d - 2) } ∈ (updateTaskDate st tid d).1.tasks)) := by
  constructor
  · intro h
    have hg : (dayOfWeek d == 0 || dayOfWeek d == 6) = true := by
      rcases h with h | h <;> simp [h]
    simp [updateTaskDate, hg]
  · intro h hex
    push_neg at h
    have hg : (dayOfWeek d == 0 || dayOfWeek d == 6) = false := by
      simp [h.1, h.2]
    refine ⟨by simp [updateTaskDate, hg, hex], by simp [updateTaskDate, hg, hex], ?_⟩
    intro t ht
    constructor
    · intro hne
      simp only [updateTaskDate, hg, hex, Bool.false_eq_true, if_false, if_true, List.mem_map]
      exact ⟨t, ht, by simp [hne]⟩
    · intro heq
      simp only [updateTaskDate, hg, hex, Bool.false_eq_true, if_false, if_true, List.mem_map]
      exact ⟨t, ht, by simp [heq]⟩

/-- Everything produced by the enumeration loop is a weekday at or after
the starting day. -/
theorem mem_weekdaysFrom {a : Int} {k : Nat} {d : Int} (h : d ∈ weekdaysFrom a k) :
    isWeekday d = true ∧ a ≤ d := by
  induction k generalizing a with
  | zero => simp [weekdaysFrom] at h
  | succ k ih =>
    unfold weekdaysFrom at h
    by_cases hw : isWeekday a
    · rw [if_pos hw] at h
      rcases List.mem_cons.mp h with rfl | h
      · exact ⟨hw, le_refl _⟩
      · have := ih h
        exact ⟨this.1, by omega⟩
    · rw [if_neg hw] at h
      have := ih h
      exact ⟨this.1, by omega⟩

/-- The enumeration loop yields distinct (strictly increasing) days. -/
theorem nodup_weekdaysFrom (a : Int) (k : Nat) : (weekdaysFrom a k).Nodup := by
  induction k generalizing a with
  | zero => simp [weekdaysFrom]
  | succ k ih =>
    unfold weekdaysFrom
    by_cases hw : isWeekday a
    · rw [if_pos hw]
      refine List.nodup_cons.mpr ⟨fun hmem => ?_, ih (a + 1)⟩
      have := mem_weekdaysFrom hmem
      omega
    · rw [if_neg hw]
      exact ih (a + 1)

/-- Among three consecutive days ending anywhere, stepping back from a day
whose two predecessors are weekend days always reaches a weekday (the
weekend is only two days long). -/
theorem weekday_gap (d : Int) (h1 : isWeekday (d - 1) = false) (h2 : isWeekday (d - 2) = false) :
    isWeekday (d - 3) = true := by
  rw [isWeekday_false_iff] at h1 h2
  rw [isWeekday_iff]
  omega

theorem prevWeekday_isWeekday (d : Int) : isWeekday (prevWeekday d) = true := by
  by_cases h1 : isWeekday (d - 1) = true
  · simp [prevWeekday, h1]
  · have h1' : isWeekday (d - 1) = false := by simpa using h1
    by_cases h2 : isWeekday (d - 2) = true
    · simp [prevWeekday, h1', h2]
    · have h2' : isWeekday (d - 2) = false := by simpa using h2
      simp [prevWeekday, h1', h2', weekday_gap d h1' h2']

theorem prevWeekday_lt (d : Int) : prevWeekday d < d := by
  unfold prevWeekday
  split_ifs <;> omega

theorem prevWeekday_ge (d : Int) : d - 3 ≤ prevWeekday d := by
  unfold prevWeekday
  split_ifs <;> omega

theorem stepsNeeded_le (n : Nat) : ∀ d : Int, stepsNeeded d n ≤ 3 * n := by
  induction n with
  | zero => intro d; simp [stepsNeeded]
  | succ n ih =>
    intro d
    have hw : wkSkip d ≤ 2 := by
      unfold wkSkip
      split_ifs <;> omega
    have := ih (prevWeekday d)
    unfold stepsNeeded
    omega

/-- With enough fuel (`stepsNeeded` steps), the backward loop of
`calculateBusinessDueDate` computes the `n`-fold previous-weekday
iterate. -/
theorem dueDateLoop_eq (n : Nat) : ∀ (d : Int) (fuel : Nat), stepsNeeded d n ≤ fuel →
    dueDateLoop fuel d n = prevWeekday^[n] d := by
  induction n with
  | zero =>
    intro d fuel _
    cases fuel <;> simp [dueDateLoop]
  | succ n ih =>
    intro d fuel hfuel
    unfold stepsNeeded at hfuel
    by_cases h1 : isWeekday (d - 1) = true
    · have hw : wkSkip d = 0 := by simp [wkSkip, h1]
      have hp : prevWeekday d = d - 1 := by simp [prevWeekday, h1]
      rw [hw, hp] at hfuel
      obtain ⟨f, rfl⟩ : ∃ f, fuel = f + 1 := ⟨fuel - 1, by omega⟩
      simp only [dueDateLoop, h1, if_true]
      rw [Function.iterate_succ_apply, hp]
      exact ih (d - 1) f (by omega)
    · have h1' : isWeekday (d - 1) = false := by simpa using h1
      by_cases h2 : isWeekday (d - 2) = true
      · have hw : wkSkip d = 1 := by simp [wkSkip, h1', h2]
        have hp : prevWeekday d = d - 2 := by simp [prevWeekday, h1', h2]
        rw [hw, hp] at hfuel
        obtain ⟨f, rfl⟩ : ∃ f, fuel = f + 2 := ⟨fuel - 2, by omega⟩
        have e1 : d - 1 - 1 = d - 2 := by ring
        simp only [dueDateLoop, h1', Bool.false_eq_true, if_false, e1, h2, if_true]
        rw [Function.iterate_succ_apply, hp]
        exact ih (d - 2) f (by omega)
      · have h2' : isWeekday (d - 2) = false := by simpa using h2
        have h3 := weekday_gap d h1' h2'
        have hw : wkSkip d = 2 := by simp [wkSkip, h1', h2']
        have hp : prevWeekday d = d - 3 := by simp [prevWeekday, h1', h2']
        rw [hw, hp] at hfuel
        obtain ⟨f, rfl⟩ : ∃ f, fuel = f + 3 := ⟨fuel - 3, by omega⟩
        have e1 : d - 1 - 1 = d - 2 := by ring
        have e2 : d - 2 - 1 = d - 3 := by ring
        simp only [dueDateLoop, h1', h2', Bool.false_eq_true, if_false, e1, e2, h3, if_true]
        rw [Function.iterate_succ_apply, hp]
        exact ih (d - 3) f (by omega)

theorem countWeekdaysFrom_add (j k : Nat) : ∀ a : Int,
    countWeekdaysFrom a (j + k) = countWeekdaysFrom a j + countWeekdaysFrom (a + j) k := by
  induction j with
  | zero => intro a; simp [countWeekdaysFrom]
  | succ j ih =>
    intro a
    have e : j + 1 + k = (j + k) + 1 := by omega
    rw [e]
    simp only [countWeekdaysFrom]
    rw [ih (a + 1)]
    have harg : a + 1 + (j : Int) = a + ((j + 1 : Nat) : Int) := by push_cast; ring
    rw [harg]
    omega

/-- Exactly one weekday lies in the half-open interval from the previous
weekday of `d` up to (excluding) `d`: the previous weekday itself. -/
theorem count_prevWeekday (d : Int) : countWeekdaysFrom (prevWeekday d) ((d - prevWeekday d).toNat) = 1 := by
  by_cases h1 : isWeekday (d - 1) = true
  · have hp : prevWeekday d = d - 1 := by simp [prevWeekday, h1]
    rw [hp]
    have e : (d - (d - 1)).toNat = 1 := by omega
    rw [e]
    simp [countWeekdaysFrom, h1]
  · have h1' : isWeekday (d - 1) = false := by simpa using h1
    by_cases h2 : isWeekday (d - 2) = true
    · have hp : prevWeekday d = d - 2 := by simp [prevWeekday, h1', h2]
      rw [hp]
      have e : (d - (d - 2)).toNat = 2 := by omega
      rw [e]
      have e1 : d - 2 + 1 = d - 1 := by ring
      simp [countWeekdaysFrom, h2, e1, h1']
    · have h2' : isWeekday (d - 2) = false := by simpa using h2
      have h3 := weekday_gap d h1' h2'
      have hp : prevWeekday d = d - 3 := by simp [prevWeekday, h1', h2']
      rw [hp]
      have e : (d - (d - 3)).toNat = 3 := by omega
      rw [e]
      have e1 : d - 3 + 1 = d - 2 := by ring
      have e2 : d - 2 + 1 = d - 1 := by ring
      simp [countWeekdaysFrom, h3, e1, e2, h1', h2']

/-- The `n+1`-fold previous-weekday iterate is a weekday, lies strictly
before `d`, and there are exactly `n+1` weekdays from it up to
(excluding) `d`. -/
theorem prevIter_spec (n : Nat) : ∀ d : Int,
    isWeekday (prevWeekday^[n + 1] d) = true
    ∧ prevWeekday^[n + 1] d < d
    ∧ countWeekdaysFrom (prevWeekday^[n + 1] d) ((d - prevWeekday^[n + 1] d).toNat) = n + 1 := by
  induction n with
  | zero =>
    intro d
    rw [Function.iterate_one]
    exact ⟨prevWeekday_isWeekday d, prevWeekday_lt d, count_prevWeekday d⟩
  | succ n ih =>
    intro d
    rw [Function.iterate_succ_apply]
    obtain ⟨h1, h2, h3⟩ := ih (prevWeekday d)
    have hpd : prevWeekday d < d := prevWeekday_lt d
    refine ⟨h1, by omega, ?_⟩
    have hsplit : (d - prevWeekday^[n + 1] (prevWeekday d)).toNat
        = (prevWeekday d - prevWeekday^[n + 1] (prevWeekday d)).toNat + (d - prevWeekday d).toNat := by
      omega
    rw [hsplit, countWeekdaysFrom_add]
    have harg : prevWeekday^[n + 1] (prevWeekday d)
        + ((prevWeekday d - prevWeekday^[n + 1] (prevWeekday d)).toNat : Int) = prevWeekday d := by
      omega
    rw [harg, h3, count_prevWeekday d]

/-- When the scope and calendar are found and the uniqueness guard passes,
`updateScope` runs the reconciliation. -/
theorem updateScope_no_conflict (st : State) (scopeId : Nat) (req : UpdateRequest) (cur : ScopeRec) (cal : Cal)
    (h1 : st.scopes.find? (fun s => s.id == scopeId) = some cur)
    (h2 : st.calendars.find? (fun c => c.id == cur.calendarId) = some cal)
    (h3 : (typeChanging req cur && conflictExists st scopeId cur.calendarId (req.contentType.getD cur.contentType)) = false) :
    updateScope st scopeId req = reconcile st scopeId cur cal req := by
  simp [updateScope, h1, h2, h3]

theorem migrateTask_id (oldCT newCT : Str) (t : Task) : (migrateTask oldCT newCT t).id = t.id := rfl

theorem migrateTask_contentType (oldCT newCT : Str) (t : Task) :
    (migrateTask oldCT newCT t).contentType = newCT := rfl

theorem scopeRowUpdated_tasks (st : State) (scopeId : Nat) (req : UpdateRequest) (newQ : Int) (newCT : Str) (tc : Bool) :
    (scopeRowUpdated st scopeId req newQ newCT tc).tasks = st.tasks := rfl

/-- Task migration and the scope-row update touch no task ids: the task
set before quantity reconciliation has exactly the original ids, in
order. -/
theorem midState_tasks_ids (st : State) (scopeId : Nat) (cur : ScopeRec) (req : UpdateRequest) :
    (midState st scopeId cur req).tasks.map Task.id = st.tasks.map Task.id := by
  unfold midState
  split
  · show ((st.tasks.map _).map Task.id) = _
    rw [List.map_map]
    apply List.map_congr_left
    intro t _
    simp only [Function.comp_apply]
    by_cases h : (t.calendarId == cur.calendarId && t.contentType == cur.contentType) = true
    · rw [if_pos h, migrateTask_id]
    · rw [if_neg h]
  · rfl

theorem midState_tasks_length (st : State) (scopeId : Nat) (cur : ScopeRec) (req : UpdateRequest) :
    (midState st scopeId cur req).tasks.length = st.tasks.length := by
  have h := midState_tasks_ids st scopeId cur req
  have := congrArg List.length h
  simpa using this

theorem insertPD_perm (t : Task) (l : List Task) : (insertPD t l).Perm (t :: l) := by
  induction l with
  | nil => exact List.Perm.refl _
  | cons h rest ih =>
    unfold insertPD
    split_ifs with hc
    · exact List.Perm.refl _
    · exact (ih.cons h).trans (List.Perm.swap t h rest)

theorem sortByPublishDateDesc_perm (l : List Task) : (sortByPublishDateDesc l).Perm l := by
  induction l with
  | nil => exact List.Perm.refl _
  | cons t rest ih =>
    exact (insertPD_perm t (sortByPublishDateDesc rest)).trans (ih.cons t)

theorem insertScore_perm (t : Task) (l : List Task) : (insertScore t l).Perm (t :: l) := by
  induction l with
  | nil => exact List.Perm.refl _
  | cons h rest ih =>
    unfold insertScore
    split_ifs with hc
    · exact List.Perm.refl _
    · exact (ih.cons h).trans (List.Perm.swap t h rest)

theorem sortByScoreDesc_perm (l : List Task) : (sortByScoreDesc l).Perm l := by
  induction l with
  | nil => exact List.Perm.refl _
  | cons t rest ih =>
    exact (insertScore_perm t (sortByScoreDesc rest)).trans (ih.cons t)

theorem deletionOrder_perm (l : List Task) : (deletionOrder l).Perm l :=
  (sortByScoreDesc_perm _).trans (sortByPublishDateDesc_perm l)

theorem insertScore_pairwise (t : Task) (l : List Task)
    (hp : List.Pairwise (fun a b => scoreOf b.status ≤ scoreOf a.status) l) :
    List.Pairwise (fun a b => scoreOf b.status ≤ scoreOf a.status) (insertScore t l) := by
  induction l with
  | nil => simp [insertScore]
  | cons h rest ih =>
    rw [List.pairwise_cons] at hp
    unfold insertScore
    split_ifs with hc
    · rw [List.pairwise_cons]
      refine ⟨?_, List.pairwise_cons.mpr hp⟩
      intro x hx
      rcases List.mem_cons.mp hx with rfl | hx
      · exact hc
      · exact le_trans (hp.1 x hx) hc
    · rw [List.pairwise_cons]
      refine ⟨?_, ih hp.2⟩
      intro x hx
      have hx' : x ∈ t :: rest := (insertScore_perm t rest).mem_iff.mp hx
      rcases List.mem_cons.mp hx' with rfl | hx'
      · omega
      · exact hp.1 x hx'

/-- The score sort really sorts: its output is ordered by non-increasing
status score (TODO first, COMPLETED last). -/
theorem sortByScoreDesc_pairwise (l : List Task) :
    List.Pairwise (fun a b => scoreOf b.status ≤ scoreOf a.status) (sortByScoreDesc l) := by
  induction l with
  | nil => simp [sortByScoreDesc]
  | cons t rest ih => exact insertScore_pairwise t _ ih

/-- Removing the unique task with a given id shortens the list by exactly
one. -/
theorem length_filter_ne_id (l : List Task) (d : Task) (hd : d ∈ l) (hnd : (l.map Task.id).Nodup) :
    (l.filter (fun t => !(t.id == d.id))).length = l.length - 1 := by
  induction l with
  | nil => cases hd
  | cons h rest ih =>
    rw [List.map_cons, List.nodup_cons] at hnd
    by_cases hid : h.id = d.id
    · have hpred : (!(h.id == d.id)) = false := by simp [hid]
      rw [List.filter_cons, hpred]
      have hall : rest.filter (fun t => !(t.id == d.id)) = rest := by
        apply List.filter_eq_self.mpr
        intro t htr
        have hne : t.id ≠ d.id := by
          intro he
          exact hnd.1 (by rw [← hid] at he; exact he ▸ List.mem_map_of_mem Task.id htr)
        simp [hne]
      simp [hall]
    · have hpred : (!(h.id == d.id)) = true := by simp [hid]
      have hd' : d ∈ rest := by
        rcases List.mem_cons.mp hd with rfl | hm
        · exact absurd rfl hid
        · exact hm
      rw [List.filter_cons, hpred]
      have hlen := ih hd' hnd.2
      have : 1 ≤ rest.length := List.length_pos.mpr (List.ne_nil_of_mem hd')
      simp only [if_true, List.length_cons]
      omega

/-- Deleting rows by a duplicate-free list of ids of rows present in a
duplicate-free table removes exactly one row per id. -/
theorem length_filter_not_mem_ids (ds : List Task) : ∀ l : List Task,
    (l.map Task.id).Nodup → (∀ t ∈ ds, t ∈ l) → (ds.map Task.id).Nodup →
    (l.filter (fun t => !((ds.map Task.id).contains t.id))).length = l.length - ds.length := by
  induction ds with
  | nil =>
    intro l _ _ _
    simp
  | cons d ds ih =>
    intro l hnd hsub hds
    rw [List.map_cons, List.nodup_cons] at hds
    have hpred : (fun t : Task => !(((d :: ds).map Task.id).contains t.id))
        = fun t : Task => ((!((ds.map Task.id).contains t.id)) && (!(t.id == d.id))) := by
      funext t
      rw [List.map_cons, List.contains_cons]
      rw [Bool.not_or]
      rw [Bool.and_comm]
    rw [hpred, ← List.filter_filter]
    have hl' : (l.filter (fun t => !(t.id == d.id))).length = l.length - 1 :=
      length_filter_ne_id l d (hsub d (List.mem_cons_self d ds)) hnd
    have hnd' : ((l.filter (fun t => !(t.id == d.id))).map Task.id).Nodup :=
      List.Nodup.sublist (List.Sublist.map Task.id (List.filter_sublist l)) hnd
    have hsub' : ∀ t ∈ ds, t ∈ l.filter (fun t => !(t.id == d.id)) := by
      intro t htds
      have htl : t ∈ l := hsub t (List.mem_cons_of_mem d htds)
      have hne : t.id ≠ d.id := by
        intro he
        exact hds.1 (he ▸ List.mem_map_of_mem Task.id htds)
      exact List.mem_filter.mpr ⟨htl, by simp [hne]⟩
    rw [ih _ hnd' hsub' hds.2, hl']
    simp only [List.length_cons]
    omega

/-- Full behaviour of the deletion step (shared helper): result is Ok, the
surviving tasks are exactly those whose id is not among the selected ids,
exactly `min k (candidate count)` tasks disappear, and every task that
disappears was a candidate (right calendar, right content type). -/
theorem decreaseTasks_spec (st : State) (calId : Nat) (ct : Str) (k : Nat)
    (hnd : (st.tasks.map Task.id).Nodup) :
    (decreaseTasks st calId ct k).2 = ScopeResult.ok
    ∧ (decreaseTasks st calId ct k).1.tasks
        = st.tasks.filter (fun t => !(((toDeleteList st calId ct k).map Task.id).contains t.id))
    ∧ (decreaseTasks st calId ct k).1.tasks.length = st.tasks.length - min k (countTypeCal st.tasks calId ct)
    ∧ ∀ t ∈ st.tasks, t ∉ (decreaseTasks st calId ct k).1.tasks →
        t.calendarId = calId ∧ t.contentType = ct := by
  have hTTsub : List.Sublist (typeTasks st.tasks calId ct) st.tasks := List.filter_sublist st.tasks
  have hndTT : ((typeTasks st.tasks calId ct).map Task.id).Nodup :=
    List.Nodup.sublist (List.Sublist.map Task.id hTTsub) hnd
  have hperm : (deletionOrder (typeTasks st.tasks calId ct)).Perm (typeTasks st.tasks calId ct) :=
    deletionOrder_perm _
  have hndDO : ((deletionOrder (typeTasks st.tasks calId ct)).map Task.id).Nodup :=
    (hperm.map Task.id).nodup_iff.mpr hndTT
  have hds : ((toDeleteList st calId ct k).map Task.id).Nodup :=
    List.Nodup.sublist (List.Sublist.map Task.id (List.take_sublist k _)) hndDO
  have hsubTT : ∀ t ∈ toDeleteList st calId ct k, t ∈ typeTasks st.tasks calId ct := by
    intro t ht
    exact hperm.mem_iff.mp (List.take_subset k _ ht)
  have hsub : ∀ t ∈ toDeleteList st calId ct k, t ∈ st.tasks := by
    intro t ht
    exact List.mem_of_mem_filter (hsubTT t ht)
  have hlen := length_filter_not_mem_ids (toDeleteList st calId ct k) st.tasks hnd hsub hds
  have hlen2 : (toDeleteList st calId ct k).length = min k (countTypeCal st.tasks calId ct) := by
    unfold toDeleteList
    rw [List.length_take, hperm.length_eq]
    rfl
  refine ⟨rfl, rfl, ?_, ?_⟩
  · show (st.tasks.filter _).length = _
    rw [hlen, hlen2]
  · intro t ht hnot
    have hpredf : (!(((toDeleteList st calId ct k).map Task.id).contains t.id)) = false := by
      by_contra hb
      have : (!(((toDeleteList st calId ct k).map Task.id).contains t.id)) = true := by
        revert hb
        cases (!(((toDeleteList st calId ct k).map Task.id).contains t.id)) <;> simp
      exact hnot (List.mem_filter.mpr ⟨ht, this⟩)
    have hcont : (((toDeleteList st calId ct k).map Task.id).contains t.id) = true := by
      revert hpredf
      cases (((toDeleteList st calId ct k).map Task.id).contains t.id) <;> simp
    have hmemid : t.id ∈ (toDeleteList st calId ct k).map Task.id := by
      simpa using hcont
    obtain ⟨x, hxdel, hxid⟩ := List.mem_map.mp hmemid
    have hxst : x ∈ st.tasks := hsub x hxdel
    have hxt : x = t := List.inj_on_of_nodup_map hnd hxst ht hxid
    have htTT : t ∈ typeTasks st.tasks calId ct := hxt ▸ hsubTT x hxdel
    have hb := (List.mem_filter.mp htTT).2
    rw [Bool.and_eq_true, beq_iff_eq, beq_iff_eq] at hb
    exact hb

theorem upsertScope_tasks (st : State) (cid : Nat) (ct : Str) (q : Int) :
    (upsertScope st cid ct q).tasks = st.tasks := by
  unfold upsertScope
  split_ifs <;> rfl

/-- One bulk-generate iteration only appends its created tasks. -/
theorem generateStep_tasks (bn : Str) (bid cid : Nat) (snapshot : List Task) (st : State) (p : GenPair) :
    (generateStep bn bid cid snapshot st p).1.tasks = st.tasks ++ (generateStep bn bid cid snapshot st p).2 := by
  unfold generateStep
  dsimp only
  split_ifs with h
  · simp
  · simp [upsertScope_tasks]

/-- One bulk-generate iteration creates exactly
`max(0, quantity - snapshot count)` tasks. -/
theorem generateStep_count (bn : Str) (bid cid : Nat) (snapshot : List Task) (st : State) (p : GenPair) :
    (generateStep bn bid cid snapshot st p).2.length = (p.quantity - (countType snapshot p.contentType : Int)).toNat := by
  unfold generateStep
  dsimp only
  split_ifs with h
  · simp [h]
  · simp

/-- A bulk-generate iteration with nothing to create is skipped entirely:
no scope write, no task creation, the state is returned untouched. -/
theorem generateStep_zero (bn : Str) (bid cid : Nat) (snapshot : List Task) (st : State) (p : GenPair)
    (h : (p.quantity - (countType snapshot p.contentType : Int)).toNat = 0) :
    generateStep bn bid cid snapshot st p = (st, []) := by
  unfold generateStep
  dsimp only
  rw [if_pos h]

/-- The bulk loop is additive-only and creates, per request entry, exactly
`max(0, quantity - snapshot count)` tasks. -/
theorem generateTasksGo_spec (bn : Str) (bid cid : Nat) (snapshot : List Task) : ∀ (pairs : List GenPair) (st : State),
    (generateTasksGo bn bid cid snapshot st pairs).1.tasks
        = st.tasks ++ (generateTasksGo bn bid cid snapshot st pairs).2.flatten
    ∧ ((generateTasksGo bn bid cid snapshot st pairs).2.map List.length)
        = pairs.map (fun p => (p.quantity - (countType snapshot p.contentType : Int)).toNat) := by
  intro pairs
  induction pairs with
  | nil => intro st; simp [generateTasksGo]
  | cons p ps ih =>
    intro st
    obtain ⟨iht, ihl⟩ := ih (generateStep bn bid cid snapshot st p).1
    constructor
    · show (generateTasksGo bn bid cid snapshot (generateStep bn bid cid snapshot st p).1 ps).1.tasks = _
      rw [iht, generateStep_tasks]
      simp [generateTasksGo]
    · show List.map List.length ((generateStep bn bid cid snapshot st p).2 :: _) = _
      rw [List.map_cons, generateStep_count, ihl, List.map_cons]

theorem ciReplaceAux_empty_pat (repl : Str → Str) : ∀ (f : Nat) (s : Str), ciReplaceAux [] repl f s = s := by
  intro f s
  induction s generalizing f with
  | nil => cases f <;> rfl
  | cons c rest ih =>
    cases f with
    | zero => rfl
    | succ f => simp [ciReplaceAux, ih f]

theorem specRewriteAux_nil (pat : Str) (repl : Str → Str) (f : Nat) : specRewriteAux pat repl f [] = [] := by
  cases f with
  | zero => rfl
  | succ f => simp [specRewriteAux, findCI]

/-- When the pattern occurs nowhere (case-insensitively), the source
scanner leaves the string unchanged. -/
theorem ciReplaceAux_of_findCI_none (pat : Str) (repl : Str → Str) : ∀ (s : Str) (f : Nat),
    findCI pat s = none → ciReplaceAux pat repl f s = s := by
  intro s
  induction s with
  | nil => intro f _; cases f <;> rfl
  | cons c rest ih =>
    intro f hnone
    have hsw : startsWithCI pat (c :: rest) = false := by
      by_contra hb
      have hb' : startsWithCI pat (c :: rest) = true := by
        revert hb
        cases startsWithCI pat (c :: rest) <;> simp
      simp [findCI, hb'] at hnone
    have hrest : findCI pat rest = none := by
      simp only [findCI, hsw, Bool.false_eq_true, if_false, Option.map_eq_none'] at hnone
      exact hnone
    cases f with
    | zero => rfl
    | succ f => simp [ciReplaceAux, hsw, ih f hrest]

/-- The fuel of `specRewriteAux` is irrelevant once it covers the string
length. -/
theorem specRewriteAux_fuel (pat : Str) (repl : Str → Str) (hpat : pat ≠ []) :
    ∀ (N : Nat) (s : Str) (f g : Nat), s.length ≤ N → s.length ≤ f → s.length ≤ g →
    specRewriteAux pat repl f s = specRewriteAux pat repl g s := by
  intro N
  have hplen : 1 ≤ pat.length := by
    cases pat with
    | nil => exact absurd rfl hpat
    | cons p ps => simp
  induction N with
  | zero =>
    intro s f g hN _ _
    have hs : s = [] := List.eq_nil_of_length_eq_zero (by omega)
    rw [hs, specRewriteAux_nil, specRewriteAux_nil]
  | succ N ih =>
    intro s f g hN hf hg
    cases s with
    | nil => rw [specRewriteAux_nil, specRewriteAux_nil]
    | cons c rest =>
      have hlen : (c :: rest).length = rest.length + 1 := by simp
      obtain ⟨f', rfl⟩ : ∃ f', f = f' + 1 := ⟨f - 1, by rw [hlen] at hf; omega⟩
      obtain ⟨g', rfl⟩ : ∃ g', g = g' + 1 := ⟨g - 1, by rw [hlen] at hg; omega⟩
      simp only [specRewriteAux]
      cases hfi : findCI pat (c :: rest) with
      | none => rfl
      | some i =>
        have hdl : ((c :: rest).drop (i + pat.length)).length ≤ N := by
          rw [List.length_drop, hlen]
          rw [hlen] at hN
          omega
        have hdf : ((c :: rest).drop (i + pat.length)).length ≤ f' := by
          rw [List.length_drop, hlen]
          rw [hlen] at hf
          omega
        have hdg : ((c :: rest).drop (i + pat.length)).length ≤ g' := by
          rw [List.length_drop, hlen]
          rw [hlen] at hg
          omega
        dsimp only
        rw [ih _ f' g' hdl hdf hdg]

/-- The source's left-to-right scanning replacement computes exactly the
specification-side "repeatedly replace the leftmost case-insensitive
occurrence" rewriting. -/
theorem ciReplaceAux_eq_specRewriteAux (pat : Str) (repl : Str → Str) (hpat : pat ≠ []) :
    ∀ (N : Nat) (s : Str) (f g : Nat), s.length ≤ N → s.length ≤ f → s.length ≤ g →
    ciReplaceAux pat repl f s = specRewriteAux pat repl g s := by
  have hpe : pat.isEmpty = false := by
    cases pat with
    | nil => exact absurd rfl hpat
    | cons p ps => rfl
  have hplen : 1 ≤ pat.length := by
    cases pat with
    | nil => exact absurd rfl hpat
    | cons p ps => simp
  intro N
  induction N with
  | zero =>
    intro s f g hN _ _
    have hs : s = [] := List.eq_nil_of_length_eq_zero (by omega)
    rw [hs, specRewriteAux_nil]
    cases f <;> rfl
  | succ N ih =>
    intro s f g hN hf hg
    cases s with
    | nil =>
      rw [specRewriteAux_nil]
      cases f <;> rfl
    | cons c rest =>
      have hlen : (c :: rest).length = rest.length + 1 := by simp
      obtain ⟨f', rfl⟩ : ∃ f', f = f' + 1 := ⟨f - 1, by rw [hlen] at hf; omega⟩
      obtain ⟨g', rfl⟩ : ∃ g', g = g' + 1 := ⟨g - 1, by rw [hlen] at hg; omega⟩
      by_cases hm : startsWithCI pat (c :: rest) = true
      · have hcond : (!pat.isEmpty && startsWithCI pat (c :: rest)) = true := by
          rw [hpe, hm]
          rfl
        have hfi : findCI pat (c :: rest) = some 0 := by simp [findCI, hm]
        simp only [ciReplaceAux, hcond, if_true, specRewriteAux, hfi]
        simp only [List.take_zero, List.drop_zero, List.nil_append, Nat.zero_add]
        congr 1
        have hdl : ((c :: rest).drop pat.length).length ≤ N := by
          rw [List.length_drop, hlen]
          rw [hlen] at hN
          omega
        have hdf : ((c :: rest).drop pat.length).length ≤ f' := by
          rw [List.length_drop, hlen]
          rw [hlen] at hf
          omega
        have hdg : ((c :: rest).drop pat.length).length ≤ g' := by
          rw [List.length_drop, hlen]
          rw [hlen] at hg
          omega
        exact ih _ f' g' hdl hdf hdg
      · have hm' : startsWithCI pat (c :: rest) = false := by
          revert hm
          cases startsWithCI pat (c :: rest) <;> simp
        have hcond : (!pat.isEmpty && startsWithCI pat (c :: rest)) = false := by
          rw [hm']
          simp
        simp only [ciReplaceAux, hcond, Bool.false_eq_true, if_false]
        cases hfi : findCI pat rest with
        | none =>
          have hfi2 : findCI pat (c :: rest) = none := by simp [findCI, hm', hfi]
          simp only [specRewriteAux, hfi2]
          rw [ciReplaceAux_of_findCI_none pat repl rest f' hfi]
        | some i =>
          have hfi2 : findCI pat (c :: rest) = some (i + 1) := by simp [findCI, hm', hfi]
          simp only [specRewriteAux, hfi2]
          rw [List.take_succ_cons, List.drop_succ_cons]
          have e3 : i + 1 + pat.length = (i + pat.length) + 1 := by omega
          rw [e3, List.drop_succ_cons, List.cons_append]
          congr 1
          have hrne : rest ≠ [] := by
            intro h
            rw [h] at hfi
            simp [findCI] at hfi
          obtain ⟨m, hm2⟩ : ∃ m, rest.length = m + 1 := by
            cases rest with
            | nil => exact absurd rfl hrne
            | cons r rs => exact ⟨rs.length, by simp⟩
          have hmain : ciReplaceAux pat repl f' rest = specRewriteAux pat repl rest.length rest := by
            apply ih rest f' rest.length
            · rw [hlen] at hN; omega
            · rw [hlen] at hf; omega
            · exact le_refl _
          rw [hmain, hm2]
          simp only [specRewriteAux, hfi]
          have hfuel : specRewriteAux pat repl m (rest.drop (i + pat.length))
              = specRewriteAux pat repl g' (rest.drop (i + pat.length)) := by
            apply specRewriteAux_fuel pat repl hpat (rest.drop (i + pat.length)).length
            · exact le_refl _
            · rw [List.length_drop]
              omega
            · rw [List.length_drop]
              rw [hlen] at hg
              omega
          rw [hfuel]
          rfl

theorem specRewrite_nil (pat : Str) (repl : Str → Str) : specRewrite pat repl [] = [] := by
  unfold specRewrite
  split_ifs with h
  · rfl
  · exact specRewriteAux_nil _ _ _

/-- The source scanner and the specification-side leftmost-occurrence
rewriter agree on every input. -/
theorem ciReplace_eq_specRewrite (pat : Str) (repl : Str → Str) (s : Str) :
    ciReplace pat repl s = specRewrite pat repl s := by
  by_cases hp : pat = []
  · subst hp
    unfold ciReplace specRewrite
    rw [ciReplaceAux_empty_pat]
    rfl
  · have hpe : pat.isEmpty = false := by
      cases pat with
      | nil => exact absurd rfl hp
      | cons p ps => rfl
    unfold ciReplace specRewrite
    simp only [hpe, Bool.false_eq_true, if_false]
    exact ciReplaceAux_eq_specRewriteAux pat repl hp s.length s s.length s.length
      (le_refl _) (le_refl _) (le_refl _)

/- ------------------------------------------------------------------ -/
/- Claim theorems                                                     -/
/- ------------------------------------------------------------------ -/

/-- C8 counterexample: the claim says the description receives the same
case-preserving rewriting as the title, but the source always lowercases
the replacement in descriptions.  On the description "Blog post note"
(matched occurrence starts uppercase), migration from BLOG_POST to VIDEO
stores "video note", while the claimed title-style rewriting produces
"Video note". -/
theorem C8_description_case_counterexample :
    (migrateTask "BLOG_POST".data "VIDEO".data
        { id := 1, title := "Blog Post #1".data, description := some "Blog post note".data,
          status := Status.TODO, priority := "MEDIUM".data, contentType := "BLOG_POST".data,
          publishDate := none, dueDate := none, calendarId := 1, brandId := 7 }).description
      = some "video note".data
    ∧ claimFieldRewrite "BLOG_POST".data "VIDEO".data "Blog post note".data = "Video note".data
    ∧ some ("video note".data) ≠ some ("Video note".data) := by decide

/-- C8 (amended): migration rewrites every case-insensitive occurrence of
the old human label (the stored label with its first underscore replaced
by a space) leftmost-first; the title uses the case heuristic
(capitalised-first + lowercase remainder when the matched occurrence
started uppercase, all-lowercase otherwise), while the description always
receives the all-lowercase replacement; a null description yields the
empty string rather than a failure. -/
theorem C8_rewriter_amended (oldCT newCT : Str) (t : Task) :
    (migrateTask oldCT newCT t).contentType = newCT
    ∧ (migrateTask oldCT newCT t).title
        = specRewrite (humanLabel oldCT) (titleRepl (humanLabel newCT)) t.title
    ∧ (migrateTask oldCT newCT t).description
        = some (specRewrite (humanLabel oldCT) (fun _ => jsToLower (humanLabel newCT)) (t.description.getD [])) := by
  refine ⟨rfl, ciReplace_eq_specRewrite _ _ _, ?_⟩
  dsimp only [migrateTask]
  cases t.description with
  | none =>
    dsimp only
    rw [Option.getD_none, specRewrite_nil]
  | some d =>
    dsimp only
    rw [ciReplace_eq_specRewrite, Option.getD_some]

/-- C5: bulk generation creates, for each requested `(contentType,
quantity)` pair, exactly `max(0, quantity - existingCount)` tasks, where
`existingCount` counts the calendar's pre-existing tasks of that type (the
snapshot fetched with the calendar); it never deletes a task (the original
task list is a prefix of the result); and a pair whose additive count is
zero is skipped entirely — no scope upsert, no task creation, state
untouched. -/
theorem C5_generate_tasks_additive (st : State) (cid : Nat) (pairs : List GenPair) (cal : Cal)
    (h : st.calendars.find? (fun c => c.id == cid) = some cal) :
    (generateTasks st cid pairs).2
        = some (generateTasksGo cal.brandName cal.brandId cid (st.tasks.filter (fun t => t.calendarId == cid)) st pairs).2
    ∧ (generateTasks st cid pairs).1.tasks
        = st.tasks ++ (generateTasksGo cal.brandName cal.brandId cid (st.tasks.filter (fun t => t.calendarId == cid)) st pairs).2.flatten
    ∧ ((generateTasksGo cal.brandName cal.brandId cid (st.tasks.filter (fun t => t.calendarId == cid)) st pairs).2.map List.length)
        = pairs.map (fun p => (p.quantity - (countType (st.tasks.filter (fun t => t.calendarId == cid)) p.contentType : Int)).toNat)
    ∧ ∀ (st' : State) (p : GenPair),
        (p.quantity - (countType (st.tasks.filter (fun t => t.calendarId == cid)) p.contentType : Int)).toNat = 0 →
        generateStep cal.brandName cal.brandId cid (st.tasks.filter (fun t => t.calendarId == cid)) st' p = (st', []) := by
  have hspec := generateTasksGo_spec cal.brandName cal.brandId cid
    (st.tasks.filter (fun t => t.calendarId == cid)) pairs st
  have hform : generateTasks st cid pairs
      = ((generateTasksGo cal.brandName cal.brandId cid (st.tasks.filter (fun t => t.calendarId == cid)) st pairs).1,
         some (generateTasksGo cal.brandName cal.brandId cid (st.tasks.filter (fun t => t.calendarId == cid)) st pairs).2) := by
    simp [generateTasks, h]
  refine ⟨?_, ?_, hspec.2, ?_⟩
  · rw [hform]
  · rw [hform]
    exact hspec.1
  · intro st' p hp
    exact generateStep_zero _ _ _ _ _ _ hp

/-- C5 witness: on the sample calendar (3 BLOG_POST tasks), requesting
BLOG_POST 5, VIDEO 2 and BLOG_POST 2 creates 2, 2 and 0 tasks
respectively (the last pair is skipped), never deleting anything. -/
theorem C5_generate_tasks_additive_witness :
    (sampleState.calendars.find? (fun c => c.id == 1) = some sampleCal)
    ∧ (generateTasks sampleState 1 [⟨"BLOG_POST".data, 5⟩, ⟨"VIDEO".data, 2⟩, ⟨"BLOG_POST".data, 2⟩]).1.tasks
        = sampleState.tasks
          ++ (generateTasksGo sampleCal.brandName sampleCal.brandId 1
                (sampleState.tasks.filter (fun t => t.calendarId == 1)) sampleState
                [⟨"BLOG_POST".data, 5⟩, ⟨"VIDEO".data, 2⟩, ⟨"BLOG_POST".data, 2⟩]).2.flatten
    ∧ ((generateTasksGo sampleCal.brandName sampleCal.brandId 1
          (sampleState.tasks.filter (fun t => t.calendarId == 1)) sampleState
          [⟨"BLOG_POST".data, 5⟩, ⟨"VIDEO".data, 2⟩, ⟨"BLOG_POST".data, 2⟩]).2.map List.length)
        = [2, 2, 0] := by
  have h := C5_generate_tasks_additive sampleState 1
    [⟨"BLOG_POST".data, 5⟩, ⟨"VIDEO".data, 2⟩, ⟨"BLOG_POST".data, 2⟩] sampleCal (by decide)
  exact ⟨by decide, h.2.1, by decide⟩

/-- C4: when a scope update targets a content type that already belongs to
a distinct scope of the same calendar, the operation fails with Conflict
and the state — scopes and tasks alike — is completely unchanged: no task
is migrated, created or deleted and no later step runs. -/
theorem C4_conflict_is_total_noop (st : State) (scopeId : Nat) (req : UpdateRequest) (cur : ScopeRec) (cal : Cal)
    (h1 : st.scopes.find? (fun s => s.id == scopeId) = some cur)
    (h2 : st.calendars.find? (fun c => c.id == cur.calendarId) = some cal)
    (htc : typeChanging req cur = true)
    (hconf : conflictExists st scopeId cur.calendarId (req.contentType.getD cur.contentType) = true) :
    updateScope st scopeId req = (st, ScopeResult.conflict) := by
  simp [updateScope, h1, h2, htc, hconf]

/-- C4 witness: moving the BLOG_POST scope to VIDEO while a distinct VIDEO
scope exists on the same calendar yields Conflict and leaves the state
untouched. -/
theorem C4_conflict_is_total_noop_witness :
    updateScope sampleState2 10 reqVid = (sampleState2, ScopeResult.conflict) :=
  C4_conflict_is_total_noop sampleState2 10 reqVid bpScope sampleCal
    (by decide) (by decide) (by decide) (by decide)

/-- C1: a scope update raising the quantity by `diff > 0` leaves the
existing tasks exactly as the migration step produced them and appends
exactly `diff` new tasks of the new content type, titled
`"<label> #<n>"` for `n = existingCount+1 .. existingCount+diff` where
`existingCount` is the count of tasks of that type taken after any type
migration of the same call, with the brand description, status TODO,
priority MEDIUM, and both dates unset. -/
theorem C1_scope_increase (st : State) (scopeId : Nat) (req : UpdateRequest) (cur : ScopeRec) (cal : Cal)
    (h1 : st.scopes.find? (fun s => s.id == scopeId) = some cur)
    (h2 : st.calendars.find? (fun c => c.id == cur.calendarId) = some cal)
    (h3 : (typeChanging req cur && conflictExists st scopeId cur.calendarId (req.contentType.getD cur.contentType)) = false)
    (h4 : 0 < req.quantity.getD cur.quantity - cur.quantity) :
    (updateScope st scopeId req).2 = ScopeResult.ok
    ∧ ((updateScope st scopeId req).1.tasks).take (midState st scopeId cur req).tasks.length
        = (midState st scopeId cur req).tasks
    ∧ ((updateScope st scopeId req).1.tasks).length
        = (midState st scopeId cur req).tasks.length + (req.quantity.getD cur.quantity - cur.quantity).toNat
    ∧ (((updateScope st scopeId req).1.tasks).drop (midState st scopeId cur req).tasks.length).map Task.title
        = (List.range (req.quantity.getD cur.quantity - cur.quantity).toNat).map
            (fun i => mkTitle (req.contentType.getD cur.contentType)
              (countTypeCal (midState st scopeId cur req).tasks cur.calendarId (req.contentType.getD cur.contentType) + i + 1))
    ∧ ∀ t ∈ ((updateScope st scopeId req).1.tasks).drop (midState st scopeId cur req).tasks.length,
        t.contentType = req.contentType.getD cur.contentType
        ∧ t.status = Status.TODO
        ∧ t.priority = "MEDIUM".data
        ∧ t.publishDate = none
        ∧ t.dueDate = none
        ∧ t.description = some (mkDesc (req.contentType.getD cur.contentType) cal.brandName) := by
  have hrw : updateScope st scopeId req
      = increaseTasks (midState st scopeId cur req) cal cur.calendarId (req.contentType.getD cur.contentType)
          (req.quantity.getD cur.quantity - cur.quantity).toNat := by
    rw [updateScope_no_conflict st scopeId req cur cal h1 h2 h3]
    unfold reconcile
    rw [if_pos h4]
  rw [hrw]
  unfold increaseTasks
  refine ⟨rfl, List.take_left _ _, by simp, ?_, ?_⟩
  · rw [List.drop_left, List.map_map]
    rfl
  · intro t ht
    rw [List.drop_left] at ht
    obtain ⟨i, _, rfl⟩ := List.mem_map.mp ht
    exact ⟨rfl, rfl, rfl, rfl, rfl, rfl⟩

/-- C2: a scope update lowering the quantity (diff < 0) deletes exactly
`min(|diff|, candidate count)` tasks, where the candidates are the
calendar's tasks of the new content type; the deleted tasks are the first
`|diff|` of the candidates sorted by status score descending (TODO=2,
IN_PROGRESS=1, COMPLETED=0; a stable sort over the publish-date-descending
retrieval order, whose output is proved score-sorted and a permutation of
the candidates), and no task of any other content type (or calendar) is
ever deleted. -/
theorem C2_scope_decrease (st : State) (scopeId : Nat) (req : UpdateRequest) (cur : ScopeRec) (cal : Cal)
    (h1 : st.scopes.find? (fun s => s.id == scopeId) = some cur)
    (h2 : st.calendars.find? (fun c => c.id == cur.calendarId) = some cal)
    (h3 : (typeChanging req cur && conflictExists st scopeId cur.calendarId (req.contentType.getD cur.contentType)) = false)
    (h5 : req.quantity.getD cur.quantity - cur.quantity < 0)
    (hnd : (st.tasks.map Task.id).Nodup) :
    (updateScope st scopeId req).2 = ScopeResult.ok
    ∧ (updateScope st scopeId req).1.tasks
        = (midState st scopeId cur req).tasks.filter
            (fun t => !(((toDeleteList (midState st scopeId cur req) cur.calendarId (req.contentType.getD cur.contentType)
                (-(req.quantity.getD cur.quantity - cur.quantity)).toNat).map Task.id).contains t.id))
    ∧ (updateScope st scopeId req).1.tasks.length
        = (midState st scopeId cur req).tasks.length
          - min (-(req.quantity.getD cur.quantity - cur.quantity)).toNat
                (countTypeCal (midState st scopeId cur req).tasks cur.calendarId (req.contentType.getD cur.contentType))
    ∧ (∀ t ∈ (midState st scopeId cur req).tasks, t ∉ (updateScope st scopeId req).1.tasks →
        t.calendarId = cur.calendarId ∧ t.contentType = req.contentType.getD cur.contentType)
    ∧ List.Pairwise (fun a b => scoreOf b.status ≤ scoreOf a.status)
        (deletionOrder (typeTasks (midState st scopeId cur req).tasks cur.calendarId (req.contentType.getD cur.contentType)))
    ∧ (deletionOrder (typeTasks (midState st scopeId cur req).tasks cur.calendarId (req.contentType.getD cur.contentType))).Perm
        (typeTasks (midState st scopeId cur req).tasks cur.calendarId (req.contentType.getD cur.contentType)) := by
  have hneg : ¬ 0 < req.quantity.getD cur.quantity - cur.quantity := by omega
  have hrw : updateScope st scopeId req
      = decreaseTasks (midState st scopeId cur req) cur.calendarId (req.contentType.getD cur.contentType)
          (-(req.quantity.getD cur.quantity - cur.quantity)).toNat := by
    rw [updateScope_no_conflict st scopeId req cur cal h1 h2 h3]
    unfold reconcile
    rw [if_neg hneg, if_pos h5]
  have hndM : ((midState st scopeId cur req).tasks.map Task.id).Nodup := by
    rw [midState_tasks_ids]
    exact hnd
  have hspec := decreaseTasks_spec (midState st scopeId cur req) cur.calendarId
    (req.contentType.getD cur.contentType) (-(req.quantity.getD cur.quantity - cur.quantity)).toNat hndM
  rw [hrw]
  refine ⟨hspec.1, hspec.2.1, hspec.2.2.1, hspec.2.2.2, ?_, deletionOrder_perm _⟩
  unfold deletionOrder
  exact sortByScoreDesc_pairwise _

/-- C2 witness: lowering the sample BLOG_POST scope from 3 to 1 deletes
exactly 2 of the 3 candidates — the TODO task (id 1) and the IN_PROGRESS
task (id 2) — leaving only the COMPLETED task (id 3). -/
theorem C2_scope_decrease_witness :
    (reqQ1.quantity.getD bpScope.quantity - bpScope.quantity < 0)
    ∧ ((sampleState.tasks.map Task.id).Nodup)
    ∧ (updateScope sampleState 10 reqQ1).2 = ScopeResult.ok
    ∧ (updateScope sampleState 10 reqQ1).1.tasks.length
        = (midState sampleState 10 bpScope reqQ1).tasks.length
          - min (-(reqQ1.quantity.getD bpScope.quantity - bpScope.quantity)).toNat
                (countTypeCal (midState sampleState 10 bpScope reqQ1).tasks bpScope.calendarId (reqQ1.contentType.getD bpScope.contentType))
    ∧ (updateScope sampleState 10 reqQ1).1.tasks.map Task.id = [3] := by
  have h := C2_scope_decrease sampleState 10 reqQ1 bpScope sampleCal
    (by decide) (by decide) (by decide) (by decide) (by decide)
  exact ⟨by decide, by decide, h.1, h.2.2.1, by decide⟩

/-- C3: a scope update that changes the content type while leaving the
quantity unchanged rewrites every task of the calendar having the old
content type to the new one (title and description rewritten) in one
single-state-update batch, creates no task and deletes no task (the id
sequence is untouched), and leaves every other task unchanged. -/
theorem C3_type_change_relabels (st : State) (scopeId : Nat) (req : UpdateRequest) (cur : ScopeRec) (cal : Cal)
    (h1 : st.scopes.find? (fun s => s.id == scopeId) = some cur)
    (h2 : st.calendars.find? (fun c => c.id == cur.calendarId) = some cal)
    (htc : typeChanging req cur = true)
    (hcf : conflictExists st scopeId cur.calendarId (req.contentType.getD cur.contentType) = false)
    (hq : req.quantity.getD cur.quantity = cur.quantity) :
    updateScope st scopeId req = (midState st scopeId cur req, ScopeResult.ok)
    ∧ (midState st scopeId cur req).tasks
        = st.tasks.map (fun t =>
            if t.calendarId == cur.calendarId && t.contentType == cur.contentType
            then migrateTask cur.contentType (req.contentType.getD cur.contentType) t else t)
    ∧ (updateScope st scopeId req).1.tasks.length = st.tasks.length
    ∧ (updateScope st scopeId req).1.tasks.map Task.id = st.tasks.map Task.id
    ∧ ∀ t ∈ st.tasks,
        ((t.calendarId = cur.calendarId ∧ t.contentType = cur.contentType) →
          migrateTask cur.contentType (req.contentType.getD cur.contentType) t ∈ (updateScope st scopeId req).1.tasks
          ∧ (migrateTask cur.contentType (req.contentType.getD cur.contentType) t).contentType
              = req.contentType.getD cur.contentType)
        ∧ (¬(t.calendarId = cur.calendarId ∧ t.contentType = cur.contentType) →
            t ∈ (updateScope st scopeId req).1.tasks) := by
  have h3 : (typeChanging req cur && conflictExists st scopeId cur.calendarId (req.contentType.getD cur.contentType)) = false := by
    rw [htc, hcf]
    rfl
  have hdiff : req.quantity.getD cur.quantity - cur.quantity = 0 := by rw [hq]; ring
  have hrw : updateScope st scopeId req = (midState st scopeId cur req, ScopeResult.ok) := by
    rw [updateScope_no_conflict st scopeId req cur cal h1 h2 h3]
    unfold reconcile
    rw [hdiff]
    norm_num
  have hmid : (midState st scopeId cur req).tasks
      = st.tasks.map (fun t =>
          if t.calendarId == cur.calendarId && t.contentType == cur.contentType
          then migrateTask cur.contentType (req.contentType.getD cur.contentType) t else t) := by
    unfold midState
    rw [if_pos htc]
    rfl
  refine ⟨hrw, hmid, ?_, ?_, ?_⟩
  · rw [hrw]
    exact midState_tasks_length st scopeId cur req
  · rw [hrw]
    exact midState_tasks_ids st scopeId cur req
  · intro t ht
    constructor
    · intro hcond
      have hb : (t.calendarId == cur.calendarId && t.contentType == cur.contentType) = true := by
        simp [hcond.1, hcond.2]
      constructor
      · rw [hrw]
        show migrateTask _ _ t ∈ (midState st scopeId cur req).tasks
        rw [hmid]
        exact List.mem_map.mpr ⟨t, ht, by rw [if_pos hb]⟩
      · exact migrateTask_contentType _ _ t
    · intro hcond
      have hb : (t.calendarId == cur.calendarId && t.contentType == cur.contentType) = false := by
        rcases Decidable.not_and_iff_or_not.mp hcond with h | h <;> simp [h]
      rw [hrw]
      show t ∈ (midState st scopeId cur req).tasks
      rw [hmid]
      exact List.mem_map.mpr ⟨t, ht, by rw [if_neg (by simp [hb])]⟩

/-- C3 witness: applying the VIDEO type change to the sample state keeps
all three task ids and relabels the first task to the migrated VIDEO
version. -/
theorem C3_type_change_relabels_witness :
    (typeChanging reqVid bpScope = true)
    ∧ (conflictExists sampleState 10 bpScope.calendarId (reqVid.contentType.getD bpScope.contentType) = false)
    ∧ (reqVid.quantity.getD bpScope.quantity = bpScope.quantity)
    ∧ (updateScope sampleState 10 reqVid).2 = ScopeResult.ok
    ∧ (updateScope sampleState 10 reqVid).1.tasks.map Task.id = sampleState.tasks.map Task.id
    ∧ migrateTask bpScope.contentType (reqVid.contentType.getD bpScope.contentType) (bpTask 1 Status.TODO (some 4))
        ∈ (updateScope sampleState 10 reqVid).1.tasks := by
  have h := C3_type_change_relabels sampleState 10 reqVid bpScope sampleCal
    (by decide) (by decide) (by decide) (by decide) (by decide)
  refine ⟨by decide, by decide, by decide, ?_, h.2.2.2.1, ?_⟩
  · rw [h.1]
  · exact ((h.2.2.2.2 (bpTask 1 Status.TODO (some 4)) (by decide)).1 (by decide)).1

/-- C1 witness: raising the sample BLOG_POST scope from 3 to 5 succeeds
and appends exactly 2 tasks; the appended titles continue the numbering
at 4 and 5 ("BLOG POST #4", "BLOG POST #5"). -/
theorem C1_scope_increase_witness :
    (sampleState.scopes.find? (fun s => s.id == 10) = some bpScope)
    ∧ (sampleState.calendars.find? (fun c => c.id == bpScope.calendarId) = some sampleCal)
    ∧ ((typeChanging reqQ5 bpScope && conflictExists sampleState 10 bpScope.calendarId (reqQ5.contentType.getD bpScope.contentType)) = false)
    ∧ (0 < reqQ5.quantity.getD bpScope.quantity - bpScope.quantity)
    ∧ (updateScope sampleState 10 reqQ5).2 = ScopeResult.ok
    ∧ ((updateScope sampleState 10 reqQ5).1.tasks).length
        = (midState sampleState 10 bpScope reqQ5).tasks.length + (reqQ5.quantity.getD bpScope.quantity - bpScope.quantity).toNat
    ∧ (((updateScope sampleState 10 reqQ5).1.tasks).drop (midState sampleState 10 bpScope reqQ5).tasks.length).map Task.title
        = [mkTitle "BLOG_POST".data 4, mkTitle "BLOG_POST".data 5] := by
  have h := C1_scope_increase sampleState 10 reqQ5 bpScope sampleCal
    (by decide) (by decide) (by decide) (by decide)
  refine ⟨by decide, by decide, by decide, by decide, h.1, h.2.2.1, ?_⟩
  rw [h.2.2.2.1]
  decide

/-- C6 counterexample: the claim quantifies over every business-day offset
`n`, but at `n = 0` the function returns the publish date itself, so for a
Saturday publish date (day 2 is 1970-01-03, a Saturday) the result is
neither a weekday nor strictly before the publish date. -/
theorem C6_zero_offset_counterexample :
    calculateBusinessDueDate 2 0 = 2
    ∧ isWeekday 2 = false
    ∧ ¬ calculateBusinessDueDate 2 0 < 2 := by decide

/-- C6 (amended to offsets `n ≥ 1`): for every publish date `d` and every
business-day offset `n ≥ 1`, `calculateBusinessDueDate d n` is a weekday,
strictly before `d`, and exactly the `n`-th weekday before `d` (there are
exactly `n` weekdays in the interval from the result, inclusive, to `d`,
exclusive). -/
theorem C6_business_due_date (d : Int) (n : Nat) (h : 1 ≤ n) :
    isWeekday (calculateBusinessDueDate d n) = true
    ∧ calculateBusinessDueDate d n < d
    ∧ countWeekdaysFrom (calculateBusinessDueDate d n) ((d - calculateBusinessDueDate d n).toNat) = n := by
  have hloop : calculateBusinessDueDate d n = prevWeekday^[n] d :=
    dueDateLoop_eq n d (3 * n) (stepsNeeded_le n d)
  obtain ⟨m, rfl⟩ : ∃ m, n = m + 1 := ⟨n - 1, by omega⟩
  rw [hloop]
  exact prevIter_spec m d

/-- C6 witness: two business days before Tuesday 1970-01-06 (day 5) is
Friday 1970-01-02 (day 1). -/
theorem C6_business_due_date_witness :
    (1 ≤ 2)
    ∧ (isWeekday (calculateBusinessDueDate 5 2) = true
       ∧ calculateBusinessDueDate 5 2 < 5
       ∧ countWeekdaysFrom (calculateBusinessDueDate 5 2) ((5 - calculateBusinessDueDate 5 2).toNat) = 2) :=
  ⟨by decide, C6_business_due_date 5 2 (by decide)⟩

/-- C7: for every date range and count, the weekday generator — modelled
with an arbitrary permutation standing for the random shuffle — returns
only distinct Monday-Friday dates, at most `count` of them, and returns
fewer than `count` only when the whole range holds fewer weekdays, in
which case it returns all of them. -/
theorem C7_weekday_generator (s e : Int) (count : Nat) (shuffled : List Int)
    (hp : shuffled.Perm (weekdaysInRange s e)) :
    (∀ d ∈ getRandomWeekdayDates s e count shuffled, isWeekday d = true)
    ∧ (getRandomWeekdayDates s e count shuffled).Nodup
    ∧ (getRandomWeekdayDates s e count shuffled).length ≤ count
    ∧ ((getRandomWeekdayDates s e count shuffled).length < count →
        getRandomWeekdayDates s e count shuffled = shuffled
        ∧ (getRandomWeekdayDates s e count shuffled).Perm (weekdaysInRange s e)) := by
  have hnd : shuffled.Nodup := hp.nodup_iff.mpr (nodup_weekdaysFrom _ _)
  refine ⟨?_, ?_, ?_, ?_⟩
  · intro d hd
    have hds : d ∈ shuffled := List.take_subset count shuffled hd
    have : d ∈ weekdaysInRange s e := hp.mem_iff.mp hds
    exact (mem_weekdaysFrom this).1
  · exact hnd.sublist (List.take_sublist count shuffled)
  · exact List.length_take_le count shuffled
  · intro hlt
    have hlen : shuffled.length ≤ count := by
      by_contra hc
      push_neg at hc
      have : (shuffled.take count).length = count := by
        rw [List.length_take]
        omega
      unfold getRandomWeekdayDates at hlt
      omega
    have heq : getRandomWeekdayDates s e count shuffled = shuffled := by
      unfold getRandomWeekdayDates
      exact List.take_of_length_le hlen
    exact ⟨heq, by rw [heq]; exact hp⟩

/-- C7 witness: the weekdays of days 0..6 are {0,1,4,5,6}; a concrete
shuffle of them, cut to 3, is distinct, weekday-only and of length 3. -/
theorem C7_weekday_generator_witness :
    ([4, 0, 6, 1, 5] : List Int).Perm (weekdaysInRange 0 6)
    ∧ (∀ d ∈ getRandomWeekdayDates 0 6 3 [4, 0, 6, 1, 5], isWeekday d = true)
    ∧ (getRandomWeekdayDates 0 6 3 [4, 0, 6, 1, 5]).Nodup
    ∧ (getRandomWeekdayDates 0 6 3 [4, 0, 6, 1, 5]).length ≤ 3 :=
  ⟨by decide,
   (C7_weekday_generator 0 6 3 [4, 0, 6, 1, 5] (by decide)).1,
   (C7_weekday_generator 0 6 3 [4, 0, 6, 1, 5] (by decide)).2.1,
   (C7_weekday_generator 0 6 3 [4, 0, 6, 1, 5] (by decide)).2.2.1⟩

/-- C9: for every date-assignment request on an existing task, a Saturday
or Sunday date fails with InvalidArgument leaving the state unchanged, and
a weekday date sets the task's publishDate to that date and its dueDate to
exactly 2 calendar days earlier, leaving every other task unchanged. -/
theorem C9_assign_date (st : State) (tid : Nat) (d : Int) :
    ((dayOfWeek d = 0 ∨ dayOfWeek d = 6) → updateTaskDate st tid d = (st, DateResult.invalidArgument))
    ∧ (¬(dayOfWeek d = 0 ∨ dayOfWeek d = 6) → (st.tasks.any (fun t => t.id == tid)) = true →
        (updateTaskDate st tid d).2 = DateResult.ok
        ∧ (updateTaskDate st tid d).1.tasks.length = st.tasks.length
        ∧ ∀ t ∈ st.tasks,
            (t.id ≠ tid → t ∈ (updateTaskDate st tid d).1.tasks)
            ∧ (t.id = tid →
                { t with publishDate := some d, dueDate := some (d - 2) } ∈ (updateTaskDate st tid d).1.tasks)) :=
  updateTaskDate_spec st tid d

/-- C9 witness: in the sample state, assigning task 1 to a Saturday
(day 2) fails with InvalidArgument, and assigning it to a Wednesday
(day 6) succeeds with dueDate two calendar days earlier. -/
theorem C9_assign_date_witness :
    updateTaskDate sampleState 1 2 = (sampleState, DateResult.invalidArgument)
    ∧ (updateTaskDate sampleState 1 6).2 = DateResult.ok
    ∧ { bpTask 1 Status.TODO (some 4) with publishDate := some 6, dueDate := some 4 }
        ∈ (updateTaskDate sampleState 1 6).1.tasks := by
  refine ⟨(C9_assign_date sampleState 1 2).1 (by decide), ((C9_assign_date sampleState 1 6).2 (by decide) (by decide)).1, ?_⟩
  have h := (((C9_assign_date sampleState 1 6).2 (by decide) (by decide)).2.2
    (bpTask 1 Status.TODO (some 4)) (by decide)).2 (by decide)
  simpa using h

/-- C10: an accepted date assignment whose publish date falls on a Monday
or Tuesday stores a dueDate on the weekend (Saturday, resp. Sunday),
because the offset is a fixed 2-calendar-day subtraction with no weekday
skipping. -/
theorem C10_weekend_due_date (st : State) (tid : Nat) (d : Int)
    (h : dayOfWeek d = 1 ∨ dayOfWeek d = 2)
    (hex : (st.tasks.any (fun t => t.id == tid)) = true) :
    (updateTaskDate st tid d).2 = DateResult.ok
    ∧ (∀ t ∈ st.tasks, t.id = tid →
        { t with publishDate := some d, dueDate := some (d - 2) } ∈ (updateTaskDate st tid d).1.tasks)
    ∧ isWeekday (d - 2) = false
    ∧ (dayOfWeek d = 1 → dayOfWeek (d - 2) = 6)
    ∧ (dayOfWeek d = 2 → dayOfWeek (d - 2) = 0) := by
  have hne : ¬(dayOfWeek d = 0 ∨ dayOfWeek d = 6) := by
    rcases h with h | h <;> simp [h]
  have hmain := (updateTaskDate_spec st tid d).2 hne hex
  refine ⟨hmain.1, ?_, ?_, ?_, ?_⟩
  · intro t ht heq
    exact (hmain.2.2 t ht).2 heq
  · rw [isWeekday_false_iff]
    unfold dayOfWeek at h
    omega
  · intro h1
    unfold dayOfWeek at h1 ⊢
    omega
  · intro h2
    unfold dayOfWeek at h2 ⊢
    omega

/-- C10 witness: assigning task 1 to Monday day 4 stores dueDate day 2, a
Saturday. -/
theorem C10_weekend_due_date_witness :
    (dayOfWeek 4 = 1 ∨ dayOfWeek 4 = 2)
    ∧ (updateTaskDate sampleState 1 4).2 = DateResult.ok
    ∧ isWeekday (4 - 2 : Int) = false
    ∧ (dayOfWeek 4 = 1 → dayOfWeek (4 - 2 : Int) = 6) := by
  have h := C10_weekend_due_date sampleState 1 4 (by decide) (by decide)
  exact ⟨by decide, h.1, h.2.2.1, h.2.2.2.1⟩

end CRM
